import Mathlib

/-!
Shallow embedding of `odoo_tools/release.py` and `odoo_tools/tasks/common.py`
(simahawk/odoo-project-tools), together with theorems settling the behavioral
claims about those modules.

Python strings are modelled as Lean `String` (a wrapper around `List Char`);
Python substring membership (`pat in s`), `str.startswith`, `str.strip`,
`str.lower`, `" ".join` and `str.splitlines`-style line splitting are given
explicit executable models below.  Fallible operations (raising `SystemExit`,
`KeyError`, configparser errors, `OSError`) are modelled with `Option`.
-/

namespace OdooTools

/-! ## Substring infrastructure over character lists -/

/-- The list `p` occurs contiguously inside `l` (Python `p in l` for strings). -/
def SubL {α : Type} (p l : List α) : Prop := ∃ s t, l = s ++ (p ++ t)

/-- The list `p` is an initial segment of `l`. -/
def PrefL {α : Type} (p l : List α) : Prop := ∃ t, l = p ++ t

/-- The list `p` is a final segment of `l`. -/
def SufL {α : Type} (p l : List α) : Prop := ∃ s, l = s ++ p

/-- Executable test for `PrefL`. -/
def isPrefB {α : Type} [DecidableEq α] : List α → List α → Bool
  | [], _ => true
  | _ :: _, [] => false
  | a :: as, b :: bs => if a = b then isPrefB as bs else false

/-- Executable test for `SubL`: scan every suffix for a prefix match. -/
def isSubB {α : Type} [DecidableEq α] (p : List α) : List α → Bool
  | [] => isPrefB p []
  | c :: l => isPrefB p (c :: l) || isSubB p l

/-- Model of Python `pat in s` (substring containment) on strings. -/
def pyIn (pat s : String) : Bool := isSubB pat.data s.data

/-- Propositional form of substring containment used in the claim statements;
it is definitionally the executable test, so `decide` settles concrete cases. -/
def strContains (s pat : String) : Prop := pyIn pat s = true

instance (s pat : String) : Decidable (strContains s pat) :=
  inferInstanceAs (Decidable (pyIn pat s = true))

/-- Model of Python `s.startswith(pat)`. -/
def startsWithB (pat s : String) : Bool := isPrefB pat.data s.data

/-- Whitespace per Python `str.strip` (the characters relevant here). -/
def pyWs (c : Char) : Bool := c.isWhitespace

/-- Model of Python `s.strip()`: drop whitespace from both ends. -/
def pyStrip (s : String) : String :=
  ⟨((s.data.dropWhile pyWs).reverse.dropWhile pyWs).reverse⟩

/-- Model of Python `s.lower()` (ASCII contents only in this code base). -/
def lowerStr (s : String) : String := ⟨s.data.map Char.toLower⟩

/-- Split a character list at every occurrence of the separator `c`. -/
def splitOnChar (c : Char) : List Char → List (List Char)
  | [] => [[]]
  | x :: xs =>
      let r := splitOnChar c xs
      if x = c then [] :: r else (x :: r.headD []) :: r.tail

/-- Model of splitting a string into its newline-separated lines
(as `configparser.read_string` and `str.splitlines` do for the inputs here). -/
def strLines (s : String) : List String :=
  (splitOnChar '\n' s.data).map (fun cs => (⟨cs⟩ : String))

/-- Model of Python `" ".join(parts)`. -/
def joinSp : List String → String
  | [] => ""
  | [x] => x
  | x :: y :: ys => x ++ " " ++ joinSp (y :: ys)

/-! ## `release.py`: the version/release helper -/

/-- Embedding of `make_bumpversion_cmd` from `release.py`: build the token list
(`if new_version:` is Python truthiness, so `None` and `""` both skip the
`--new-version` token) and join with single spaces. -/
def make_bumpversion_cmd (rel_type : String) (new_version : Option String := none)
    (dry_run : Bool := false) : String :=
  let cmd := ["bumpversion"]
  let cmd := cmd ++ (match new_version with
    | some v => if v = "" then [] else ["--new-version " ++ v]
    | none => [])
  let cmd := cmd ++ (if dry_run then ["--dry-run --list"] else [])
  let cmd := cmd ++ [rel_type]
  joinSp cmd

/-- One classified line of an INI document, as `configparser` sees it. -/
inductive IniLine where
  | blank
  | secHead (name : String)
  | kv (key value : String)
  | bad

/-- Models `configparser`'s per-line classification for the flat subset used
here: blank lines and full-line `#`/`;` comments are skipped, `[name]` lines
open a section, `key = value` / `key : value` lines bind a key (keys are
stripped and lowercased, values stripped), anything else is a parse error.
Multi-line continuation values are outside the modelled subset. -/
def classifyIniLine (line : String) : IniLine :=
  let t := pyStrip line
  if t = "" then .blank
  else if startsWithB "#" t || startsWithB ";" t then .blank
  else if startsWithB "[" t then
    match t.data.getLast? with
    | some ']' => .secHead ⟨(t.data.drop 1).dropLast⟩
    | _ => .bad
  else
    match t.data.findIdx? (fun c => c == '=' || c == ':') with
    | some i => .kv (lowerStr (pyStrip ⟨t.data.take i⟩)) (pyStrip ⟨t.data.drop (i + 1)⟩)
    | none => .bad

/-- Accumulate classified lines into `(section, key, value)` entries.  A
key/value line before any section header is `configparser`'s
`MissingSectionHeaderError`, modelled as `none`. -/
def iniCollect : List IniLine → Option String → List (String × String × String) →
    Option (List (String × String × String))
  | [], _, acc => some acc
  | .blank :: rest, cur, acc => iniCollect rest cur acc
  | .secHead n :: rest, _, acc => iniCollect rest (some n) acc
  | .kv k v :: rest, cur, acc =>
      match cur with
      | none => none
      | some sec => iniCollect rest cur (acc ++ [(sec, k, v)])
  | .bad :: _, _, _ => none

/-- Models `configparser.ConfigParser.read_string` for the flat subset used by
`release.py`: classify each line and collect the entries. -/
def iniParse (s : String) : Option (List (String × String × String)) :=
  iniCollect ((strLines s).map classifyIniLine) none []

/-- Models `ConfigParser.get(section, option)`: the last binding of the key in
the section, `none` when section or option is missing. -/
def cfgGet (entries : List (String × String × String)) (sec key : String) : Option String :=
  match (entries.filter (fun e => e.1 == sec && e.2.1 == key)).getLast? with
  | some e => some e.2.2
  | none => none

/-- The text actually handed to the INI parser by `parse_bumpversion_cfg`:
the header `[bumpversion]` is prepended exactly when it does not occur as a
substring anywhere in the input. -/
def bumpversion_cfg_text (ini_content : String) : String :=
  if pyIn "[bumpversion]" ini_content then ini_content
  else "[bumpversion]" ++ "\n" ++ ini_content

/-- Embedding of `parse_bumpversion_cfg` from `release.py`. -/
def parse_bumpversion_cfg (ini_content : String) : Option (List (String × String × String)) :=
  iniParse (bumpversion_cfg_text ini_content)

/-- Embedding of `parse_new_version` from `release.py`: parse and read
`new_version` from the `bumpversion` section. -/
def parse_new_version (cfg_content : String) : Option String :=
  match parse_bumpversion_cfg cfg_content with
  | none => none
  | some cfg => cfgGet cfg "bumpversion" "new_version"

/-! ## `tasks/common.py`: project-root locator -/

/-- A directory is a list of path components; `[]` is the filesystem root. -/
abbrev DirPath := List String

/-- Model of `os.path.dirname`: the parent directory.  The root is its own
parent, matching `os.path.dirname("/") == "/"`. -/
def dirname (p : DirPath) : DirPath := p.dropLast

/-- The marker file `root_path` searches for. -/
def cookiecutterMarker : String := ".cookiecutter.context.yml"

/-- The `while max_depth > 0` loop of `root_path`, parameterized by the
directory-listing function (`os.listdir`).  Returning `none` models the
`exit_msg` call: a printed message followed by `Exit(1)`, terminating the
process with a non-zero status instead of returning. -/
def root_path_loop (listdir : DirPath → List String) : Nat → DirPath → Option DirPath
  | 0, _ => none
  | Nat.succ depth, current_dir =>
      if cookiecutterMarker ∈ listdir current_dir then some current_dir
      else if dirname current_dir = current_dir then none
      else root_path_loop listdir depth (dirname current_dir)

/-- Embedding of `root_path` from `tasks/common.py`: search the current
directory and at most four ancestors (`max_depth = 5`). -/
def root_path (listdir : DirPath → List String) (cwd : DirPath) : Option DirPath :=
  root_path_loop listdir 5 cwd

/-! ## `tasks/common.py`: confirmation prompts -/

/-- Embedding of `ask_confirmation`: the reply read from standard input is
affirmative exactly when it equals one of the three members of the tuple
`("y", "Y", "yes")`. -/
def ask_confirmation (reply : String) : Bool :=
  reply == "y" || reply == "Y" || reply == "yes"

/-- Embedding of `ask_or_abort`: `none` models the `exit_msg("Aborted")` call
(printed message plus `Exit(1)`), `some ()` a normal return. -/
def ask_or_abort (reply : String) : Option Unit :=
  if ask_confirmation reply then some () else none

/-! ## `tasks/common.py`: YAML values and the migration file -/

/-- YAML data as loaded by PyYAML's `FullLoader` (`yaml_load`): plain strings,
sequences and mappings.  A loaded value carries no comment or styling
information — PyYAML has no representation for it. -/
inductive Y where
  | str : String → Y
  | seq : List Y → Y
  | map : List (String × Y) → Y

/-- Lookup in a mapping's key/value list (Python `dict` keys are unique, so
first match suffices). -/
def assocFind : List (String × Y) → String → Option Y
  | [], _ => none
  | (k, v) :: rest, key => if k == key then some v else assocFind rest key

/-- Python `value[key]`: `none` models a `KeyError` (and, on non-mappings, the
uncaught `TypeError`, which the claims do not exercise). -/
def Y.get? : Y → String → Option Y
  | Y.map kvs, key => assocFind kvs key
  | _, _ => none

/-- Python `dict[key] = v` semantics on a key/value list: overwrite in place
if the key exists, otherwise append. -/
def upsert : List (String × Y) → String → Y → List (String × Y)
  | [], key, v => [(key, v)]
  | (k, w) :: rest, key, v =>
      if k == key then (k, v) :: rest else (k, w) :: upsert rest key v

/-- Python `base.update(upd)`: shallow merge, existing keys overwritten in
place, new keys appended in `upd` order. -/
def dictUpdate (base upd : List (String × Y)) : List (String × Y) :=
  upd.foldl (fun acc kv => upsert acc kv.1 kv.2) base

/-- The `addons.upgrade` module list of one element of `migration.versions`;
a missing `addons` or `upgrade` key yields `[]`, modelling the `KeyError`
swallowed by `get_migration_file_modules`. -/
def upgrade_mods (version : Y) : List String :=
  match version.get? "addons" with
  | some addons =>
      match addons.get? "upgrade" with
      | some (Y.seq items) =>
          items.filterMap (fun item => match item with | Y.str s => some s | _ => none)
      | _ => []
  | none => []

/-- Embedding of `get_migration_file_modules`: union the `addons.upgrade`
lists over all of `migration.versions`.  `none` models the uncaught
`KeyError` when `migration` or `versions` is missing (those two accesses sit
outside the `try`). -/
def get_migration_file_modules (content : Y) : Option (Finset String) :=
  match content.get? "migration" with
  | some migration =>
      match migration.get? "versions" with
      | some (Y.seq versions) =>
          some (versions.foldl (fun acc v => acc ∪ (upgrade_mods v).toFinset) ∅)
      | _ => none
  | none => none

/-! ## `tasks/common.py`: `update_yml_file` -/

/-- A YAML file on disk, abstracted as its top-level mapping together with the
comment/styling information present in the text. -/
structure YamlText where
  mapping : List (String × Y)
  comments : List String

/-- Model of `yaml_load` (PyYAML `FullLoader`) applied to a file's text: the
result is plain data; the file's comments and styling are not represented in
the loaded value and are therefore discarded. -/
def yaml_load_full (t : YamlText) : Y := Y.map t.mapping

/-- Model of `ruamel.yaml.YAML().dump` applied to plain (PyYAML-loaded) data:
the emitted text holds exactly that data, and no comments, since the value
being dumped carries none.  (The `yaml.indent(...)` call in the source only
configures indentation widths of this emitter.) -/
def ruamel_dump : Y → YamlText
  | Y.map kvs => ⟨kvs, []⟩
  | _ => ⟨[], []⟩

/-- Embedding of `update_yml_file`: load the file with `yaml_load`, shallow
merge `new_data` into the top-level mapping (or into the mapping at
`main_key`), and dump the result back over the file.  `none` models the
uncaught `KeyError`/`AttributeError` when `main_key` is missing or its value
is not a mapping. -/
def update_yml_file (f : YamlText) (new_data : List (String × Y))
    (main_key : Option String) : Option YamlText :=
  match yaml_load_full f with
  | Y.map data =>
      match main_key with
      | none => some (ruamel_dump (Y.map (dictUpdate data new_data)))
      | some k =>
          match assocFind data k with
          | some (Y.map sub) =>
              some (ruamel_dump (Y.map (upsert data k (Y.map (dictUpdate sub new_data)))))
          | _ => none
  | _ => none

/-! ## `tasks/common.py`: `git_ignores` -/

/-- The filter applied by `git_ignores` to each line:
`line.strip() and not line.startswith("#")`. -/
def git_ignores_keep (line : String) : Bool :=
  !(pyStrip line == "") && !(startsWithB "#" line)

/-- Embedding of `git_ignores`, taking the file's lines (`f.read().splitlines()`)
as input: start from `[]` and append every kept line in order. -/
def git_ignores (file_lines : List String) : List String :=
  file_lines.foldl
    (fun ignored line => if git_ignores_keep line then ignored ++ [line] else ignored) []

/-! ## `tasks/common.py`: the `cd` context manager -/

/-- Observable process state: the current working directory plus whatever else
the body manipulates. -/
structure ProcState (σ : Type) where
  cwd : String
  rest : σ

/-- Embedding of the `cd` context manager.  The body is an arbitrary state
transformer that either returns a value or raises an error (`Except`); in both
cases the `finally: os.chdir(prev)` restores the recorded directory. -/
def cd {σ ε α : Type} (expanduser : String → String) (path : String)
    (body : ProcState σ → Except ε α × ProcState σ) (s : ProcState σ) :
    Except ε α × ProcState σ :=
  let prev := s.cwd
  let r := body { s with cwd := expanduser path }
  (r.1, { r.2 with cwd := prev })

/-! ## `tasks/common.py`: `has_exec` -/

/-- The errno compared against in `has_exec`. -/
def ENOENT : Nat := 2

/-- Embedding of `has_exec`, parameterized by the spawn model: `none` means
`Popen([name])` succeeded (whatever the child's exit code), `some errno` means
it raised `OSError` with that errno.  Only `ENOENT` yields `False`; any other
spawn failure falls through to `return True`.  (The source spells the
constant `os.errno.ENOENT`; it is modelled here as the errno value ENOENT.) -/
def has_exec (spawn : String → Option Nat) (name : String) : Bool :=
  match spawn name with
  | some errno => if errno = ENOENT then false else true
  | none => true

/-! ## Lemmas: substring infrastructure -/

/-- Unfolding `String.append` to list append on the character data. -/
theorem strData_append (s t : String) : (s ++ t).data = s.data ++ t.data := rfl

/-- Prefix relation on cons cells. -/
theorem prefL_cons_iff {α : Type} {a b : α} {as bs : List α} :
    PrefL (a :: as) (b :: bs) ↔ a = b ∧ PrefL as bs := by
  constructor
  · rintro ⟨t, ht⟩
    injection ht with h1 h2
    exact ⟨h1.symm, t, h2⟩
  · rintro ⟨rfl, t, ht⟩
    exact ⟨t, by rw [List.cons_append, ht]⟩

/-- The executable prefix test agrees with `PrefL`. -/
theorem isPrefB_iff {α : Type} [DecidableEq α] :
    ∀ p l : List α, isPrefB p l = true ↔ PrefL p l
  | [], l => by
      simp only [isPrefB, true_iff]
      exact ⟨l, rfl⟩
  | a :: as, [] => by
      simp only [isPrefB]
      constructor
      · intro h
        exact Bool.noConfusion h
      · rintro ⟨t, ht⟩
        exact List.noConfusion ht
  | a :: as, b :: bs => by
      simp only [isPrefB]
      rw [prefL_cons_iff]
      by_cases h : a = b
      · rw [if_pos h, isPrefB_iff as bs]
        simp [h]
      · rw [if_neg h]
        simp [h]

/-- Containment in a cons cell: either a prefix match here or containment in
the tail. -/
theorem subL_cons_iff {α : Type} {p l : List α} {x : α} :
    SubL p (x :: l) ↔ PrefL p (x :: l) ∨ SubL p l := by
  constructor
  · rintro ⟨s, t, hst⟩
    cases s with
    | nil => exact Or.inl ⟨t, hst⟩
    | cons z s' =>
        injection hst with h1 h2
        exact Or.inr ⟨s', t, h2⟩
  · rintro (⟨t, ht⟩ | ⟨s, t, hst⟩)
    · exact ⟨[], t, ht⟩
    · exact ⟨x :: s, t, by rw [List.cons_append, hst]⟩

/-- The executable containment test agrees with `SubL`. -/
theorem isSubB_iff {α : Type} [DecidableEq α] :
    ∀ p l : List α, isSubB p l = true ↔ SubL p l
  | p, [] => by
      simp only [isSubB]
      rw [isPrefB_iff]
      constructor
      · rintro ⟨t, ht⟩
        exact ⟨[], t, ht⟩
      · rintro ⟨s, t, hst⟩
        cases s with
        | nil => exact ⟨t, hst⟩
        | cons z s' => cases hst
  | p, x :: l => by
      simp only [isSubB, Bool.or_eq_true]
      rw [isPrefB_iff, isSubB_iff p l, subL_cons_iff]

/-- `strContains` as a proposition about the character lists. -/
theorem strContains_iff {s pat : String} : strContains s pat ↔ SubL pat.data s.data := by
  unfold strContains pyIn
  exact isSubB_iff pat.data s.data

/-- A prefix of `a ++ b` is a prefix of `a` or extends all of `a`. -/
theorem pref_append_cases {α : Type} :
    ∀ (a p b : List α), PrefL p (a ++ b) →
      PrefL p a ∨ ∃ p2, p = a ++ p2 ∧ PrefL p2 b
  | [], p, b, h => Or.inr ⟨p, rfl, h⟩
  | x :: a', p, b, h => by
      match p, h with
      | [], _ => exact Or.inl ⟨x :: a', rfl⟩
      | y :: p', ⟨t, ht⟩ =>
          injection ht with h1 h2
          subst h1
          rcases pref_append_cases a' p' b ⟨t, h2⟩ with ⟨u, hu⟩ | ⟨p2, hp2, hb⟩
          · exact Or.inl ⟨u, by rw [List.cons_append, hu]⟩
          · exact Or.inr ⟨p2, by rw [List.cons_append, hp2], hb⟩

/-- A contiguous occurrence inside `a ++ b` lies in `a`, lies in `b`, or
straddles the boundary with a nonempty suffix of `a` and prefix of `b`. -/
theorem sub_append_cases {α : Type} :
    ∀ (a p b : List α), SubL p (a ++ b) →
      SubL p a ∨ SubL p b ∨
        ∃ p1 p2, p = p1 ++ p2 ∧ p1 ≠ [] ∧ p2 ≠ [] ∧ SufL p1 a ∧ PrefL p2 b
  | [], p, b, h => Or.inr (Or.inl h)
  | x :: a', p, b, h => by
      rcases subL_cons_iff.mp h with hpref | hsub
      · rcases pref_append_cases (x :: a') p b hpref with ⟨u, hu⟩ | ⟨p2, hp2, hb⟩
        · exact Or.inl ⟨[], u, hu⟩
        · by_cases hp2nil : p2 = []
          · subst hp2nil
            exact Or.inl ⟨[], [], by simp [hp2]⟩
          · refine Or.inr (Or.inr ⟨x :: a', p2, hp2, by simp, hp2nil, ⟨[], rfl⟩, hb⟩)
      · rcases sub_append_cases a' p b hsub with h1 | h2 | ⟨p1, p2, hsplit, hn1, hn2, ⟨s, hs⟩, hpre⟩
        · exact Or.inl (subL_cons_iff.mpr (Or.inr h1))
        · exact Or.inr (Or.inl h2)
        · exact Or.inr (Or.inr ⟨p1, p2, hsplit, hn1, hn2,
            ⟨x :: s, by rw [List.cons_append, hs]⟩, hpre⟩)

/-- A prefix is the `take` of its length. -/
theorem prefL_take {α : Type} {p l : List α} (h : PrefL p l) : p = l.take p.length := by
  obtain ⟨t, rfl⟩ := h
  rw [List.take_left]

/-- A prefix is no longer than the whole list. -/
theorem prefL_len {α : Type} {p l : List α} (h : PrefL p l) : p.length ≤ l.length := by
  obtain ⟨t, rfl⟩ := h
  rw [List.length_append]
  exact Nat.le_add_right _ _

/-- A suffix is the `drop` at the length difference. -/
theorem sufL_drop {α : Type} {p l : List α} (h : SufL p l) :
    p = l.drop (l.length - p.length) := by
  obtain ⟨s, rfl⟩ := h
  rw [List.length_append, Nat.add_sub_cancel, List.drop_left]

/-- Reassociating one concatenation step under a known fusion. -/
theorem append_fuse2 {α : Type} {a b c : List α} (h : a ++ b = c) (X : List α) :
    a ++ (b ++ X) = c ++ X := by
  rw [← h, List.append_assoc]

/-- Reassociating two concatenation steps under a known fusion. -/
theorem append_fuse3 {α : Type} {a b c d : List α} (h : a ++ (b ++ c) = d) (X : List α) :
    a ++ (b ++ (c ++ X)) = d ++ X := by
  rw [← h, List.append_assoc, List.append_assoc]

/-! ## C7: confirmation prompts -/

/-- C7: `ask_confirmation` returns true exactly on the replies `y`, `Y`,
`yes` (case-sensitive, exact matches), and `ask_or_abort` aborts the process
(`none`, modelling the printed message plus exit status 1) exactly on every
other reply, returning normally on the affirmative ones. -/
theorem ask_confirmation_spec (reply : String) :
    (ask_confirmation reply = true ↔ (reply = "y" ∨ reply = "Y" ∨ reply = "yes"))
    ∧ (ask_or_abort reply = some () ↔ (reply = "y" ∨ reply = "Y" ∨ reply = "yes"))
    ∧ (ask_or_abort reply = none ↔ ¬(reply = "y" ∨ reply = "Y" ∨ reply = "yes")) := by
  have h : ask_confirmation reply = true ↔ (reply = "y" ∨ reply = "Y" ∨ reply = "yes") := by
    simp [ask_confirmation, or_assoc]
  refine ⟨h, ?_, ?_⟩ <;> unfold ask_or_abort
  · by_cases hc : ask_confirmation reply = true
    · rw [if_pos hc]
      exact iff_of_true rfl (h.mp hc)
    · rw [if_neg hc]
      exact iff_of_false (fun habs => Option.noConfusion habs) (fun hor => hc (h.mpr hor))
  · by_cases hc : ask_confirmation reply = true
    · rw [if_pos hc]
      exact iff_of_false (fun habs => Option.noConfusion habs) (fun hn => hn (h.mp hc))
    · rw [if_neg hc]
      exact iff_of_true rfl (fun hor => hc (h.mpr hor))

/-! ## C8: the `cd` context manager -/

/-- C8: for every target path and every body run inside `cd path`, the working
directory after the scope exits equals the directory recorded before entry, on
every exit path: the body's result — normal value or raised error — and the
rest of the state pass through unchanged, while `cwd` is restored
unconditionally by the `finally` block. -/
theorem cd_restores_cwd {σ ε α : Type} (expanduser : String → String) (path : String)
    (body : ProcState σ → Except ε α × ProcState σ) (s : ProcState σ) :
    (cd expanduser path body s).2.cwd = s.cwd
    ∧ (cd expanduser path body s).1 = (body ⟨expanduser path, s.rest⟩).1
    ∧ (cd expanduser path body s).2.rest = (body ⟨expanduser path, s.rest⟩).2.rest :=
  ⟨rfl, rfl, rfl⟩

/-! ## C9: `has_exec` -/

/-- C9 counterexample: a spawn failing with an errno other than ENOENT (here
EACCES = 13) makes `has_exec` return `true` even though the spawn did not
succeed, refuting "returns true if and only if spawning succeeds". -/
theorem has_exec_true_on_failed_spawn_cex :
    has_exec (fun _ => some 13) "gpg" = true
    ∧ (fun _ => some 13 : String → Option Nat) "gpg" ≠ none := by
  constructor
  · rfl
  · intro h
    exact Option.noConfusion h

/-- C9 amended: `has_exec` returns `false` exactly when the spawn fails with
errno ENOENT; a successful spawn, or a spawn failure with any other errno,
yields `true`. -/
theorem has_exec_false_iff_enoent (spawn : String → Option Nat) (name : String) :
    has_exec spawn name = false ↔ spawn name = some ENOENT := by
  unfold has_exec
  cases h : spawn name with
  | none =>
      simp
  | some e =>
      by_cases he : e = ENOENT
      · simp [he]
      · simp [he]

/-! ## C10: the header-insertion decision of `parse_bumpversion_cfg` -/

/-- C10: header insertion is decided by a substring test over the whole input:
whenever `[bumpversion]` occurs anywhere in the input — leading header or not —
the content is parsed unchanged, and the header is prepended (followed by a
newline) if and only if that substring is absent; the parse is always run on
exactly the resulting text. -/
theorem parse_bumpversion_cfg_header_decision :
    (∀ s, strContains s "[bumpversion]" → bumpversion_cfg_text s = s)
    ∧ (∀ s, ¬strContains s "[bumpversion]" →
        bumpversion_cfg_text s = "[bumpversion]" ++ "\n" ++ s)
    ∧ ∀ s, parse_bumpversion_cfg s = iniParse (bumpversion_cfg_text s) := by
  refine ⟨?_, ?_, fun s => rfl⟩
  · intro s h
    have h' : pyIn "[bumpversion]" s = true := h
    unfold bumpversion_cfg_text
    rw [if_pos h']
  · intro s h
    have h' : ¬pyIn "[bumpversion]" s = true := h
    unfold bumpversion_cfg_text
    rw [if_neg h']

/-- Witness for C10 at a concrete input whose `[bumpversion]` occurrence is
not a leading section header: no header is prepended. -/
theorem parse_bumpversion_cfg_header_decision_witness :
    strContains "x = 1\n[bumpversion]" "[bumpversion]"
    ∧ bumpversion_cfg_text "x = 1\n[bumpversion]" = "x = 1\n[bumpversion]" :=
  ⟨by decide, parse_bumpversion_cfg_header_decision.1 "x = 1\n[bumpversion]" (by decide)⟩

/-! ## C4: header-insensitivity of `parse_new_version` -/

/-- C4: `parse_new_version` yields `1.2.3` on `new_version = 1.2.3` both with
and without the `[bumpversion]` header, and in general its result on any
header-free content equals its result on the same content with the header
prepended: both paths parse the identical text. -/
theorem parse_new_version_header_insensitive :
    parse_new_version "new_version = 1.2.3" = some "1.2.3"
    ∧ parse_new_version ("[bumpversion]" ++ "\n" ++ "new_version = 1.2.3") = some "1.2.3"
    ∧ ∀ c, ¬strContains c "[bumpversion]" →
        parse_new_version c = parse_new_version ("[bumpversion]" ++ "\n" ++ c) := by
  refine ⟨by decide, by decide, ?_⟩
  intro c hc
  have h1 : ¬pyIn "[bumpversion]" c = true := hc
  have h2 : pyIn "[bumpversion]" ("[bumpversion]" ++ "\n" ++ c) = true := by
    refine (isSubB_iff _ _).mpr ⟨[], "\n".data ++ c.data, ?_⟩
    simp [strData_append, List.append_assoc]
  unfold parse_new_version parse_bumpversion_cfg bumpversion_cfg_text
  rw [if_neg h1, if_pos h2]

/-- Witness for C4's general header-insensitivity at the concrete content
`new_version = 1.2.3`. -/
theorem parse_new_version_header_insensitive_witness :
    ¬strContains "new_version = 1.2.3" "[bumpversion]"
    ∧ parse_new_version "new_version = 1.2.3"
        = parse_new_version ("[bumpversion]" ++ "\n" ++ "new_version = 1.2.3") :=
  ⟨by decide, parse_new_version_header_insensitive.2.2 "new_version = 1.2.3" (by decide)⟩

/-! ## C6: `git_ignores` -/

/-- The append-accumulating fold of `git_ignores` is a filter. -/
theorem foldl_append_filter (p : String → Bool) :
    ∀ (ls acc : List String),
      ls.foldl (fun ign l => if p l then ign ++ [l] else ign) acc = acc ++ ls.filter p := by
  intro ls
  induction ls with
  | nil => intro acc; simp
  | cons x xs ih =>
      intro acc
      by_cases h : p x
      · simp [h, ih, List.append_assoc]
      · simp [h, ih]

/-- If everything surviving `dropWhile p` satisfies `p`, everything did. -/
theorem all_of_dropWhile_all {p : Char → Bool} {l : List Char}
    (h : ∀ c ∈ l.dropWhile p, p c = true) : ∀ c ∈ l, p c = true := by
  intro c hc
  rw [← List.takeWhile_append_dropWhile (p := p) (l := l)] at hc
  rcases List.mem_append.mp hc with h1 | h2
  · exact List.mem_takeWhile_imp h1
  · exact h c h2

/-- A stripped line is empty exactly when every character is whitespace. -/
theorem pyStrip_eq_empty_iff (s : String) :
    pyStrip s = "" ↔ ∀ c ∈ s.data, pyWs c = true := by
  unfold pyStrip
  constructor
  · intro h
    have h2 : ((s.data.dropWhile pyWs).reverse.dropWhile pyWs).reverse = [] :=
      congrArg String.data h
    rw [List.reverse_eq_nil_iff, List.dropWhile_eq_nil_iff] at h2
    refine all_of_dropWhile_all (fun c hc => ?_)
    exact h2 c (List.mem_reverse.mpr hc)
  · intro h
    have h1 : s.data.dropWhile pyWs = [] := List.dropWhile_eq_nil_iff.mpr h
    rw [h1]
    rfl

/-- C6: `git_ignores` returns exactly the subsequence of input lines that are
non-blank (contain a non-whitespace character) and do not start with `#`,
preserving order (it equals the order-preserving filter and is a sublist of
the input); on `["# comment", "", "*.pyc", "build/"]` it returns exactly
`["*.pyc", "build/"]`. -/
theorem git_ignores_spec :
    (∀ file_lines : List String, git_ignores file_lines = file_lines.filter git_ignores_keep)
    ∧ (∀ file_lines : List String, List.Sublist (git_ignores file_lines) file_lines)
    ∧ (∀ line : String,
        git_ignores_keep line = true ↔
          ((∃ c ∈ line.data, ¬pyWs c = true) ∧ ¬PrefL "#".data line.data))
    ∧ git_ignores ["# comment", "", "*.pyc", "build/"] = ["*.pyc", "build/"] := by
  have hfilter : ∀ file_lines : List String,
      git_ignores file_lines = file_lines.filter git_ignores_keep := by
    intro file_lines
    unfold git_ignores
    rw [foldl_append_filter]
    simp
  refine ⟨hfilter, ?_, ?_, by decide⟩
  · intro file_lines
    rw [hfilter]
    exact List.filter_sublist file_lines
  · intro line
    unfold git_ignores_keep
    rw [Bool.and_eq_true, Bool.not_eq_true', Bool.not_eq_true', beq_eq_false_iff_ne]
    constructor
    · rintro ⟨h1, h2⟩
      constructor
      · by_contra hall
        push_neg at hall
        exact h1 ((pyStrip_eq_empty_iff line).mpr hall)
      · intro hp
        have hb := (isPrefB_iff "#".data line.data).mpr hp
        unfold startsWithB at h2
        rw [hb] at h2
        exact Bool.noConfusion h2
    · rintro ⟨⟨c, hc, hcw⟩, h2⟩
      constructor
      · intro hall
        exact hcw ((pyStrip_eq_empty_iff line).mp hall c hc)
      · unfold startsWithB
        cases hb : isPrefB "#".data line.data
        · rfl
        · exact absurd ((isPrefB_iff "#".data line.data).mp hb) h2

/-! ## C5: `get_migration_file_modules` -/

/-- The union-accumulating fold over the versions list collects the flattened
per-version module lists. -/
theorem foldl_union_toFinset (f : Y → List String) :
    ∀ (l : List Y) (init : Finset String),
      l.foldl (fun acc v => acc ∪ (f v).toFinset) init
        = init ∪ ((l.map f).flatten).toFinset := by
  intro l
  induction l with
  | nil => intro init; simp
  | cons x xs ih =>
      intro init
      simp only [List.foldl_cons, List.map_cons, List.flatten_cons]
      rw [ih, List.toFinset_append, Finset.union_assoc]

/-- C5: over a `migration.versions` sequence, `get_migration_file_modules`
returns the set union of the per-version `addons.upgrade` lists; a version
whose mapping lacks the `addons` key, or whose `addons` mapping lacks the
`upgrade` key, contributes nothing (the `KeyError` is swallowed); and on the
three-element example `[{addons: {upgrade: [a, b]}}, {addons: {upgrade:
[b, c]}}, {}]` the result is exactly the set `{a, b, c}`. -/
theorem get_migration_file_modules_spec :
    (∀ versions : List Y,
        get_migration_file_modules (Y.map [("migration", Y.map [("versions", Y.seq versions)])])
          = some (((versions.map upgrade_mods).flatten).toFinset))
    ∧ (∀ kvs : List (String × Y), assocFind kvs "addons" = none →
        upgrade_mods (Y.map kvs) = [])
    ∧ (∀ kvs akvs : List (String × Y),
        assocFind kvs "addons" = some (Y.map akvs) → assocFind akvs "upgrade" = none →
        upgrade_mods (Y.map kvs) = [])
    ∧ get_migration_file_modules (Y.map [("migration", Y.map [("versions", Y.seq
        [Y.map [("addons", Y.map [("upgrade", Y.seq [Y.str "a", Y.str "b"])])],
         Y.map [("addons", Y.map [("upgrade", Y.seq [Y.str "b", Y.str "c"])])],
         Y.map []])])])
        = some ({"a", "b", "c"} : Finset String) := by
  refine ⟨?_, ?_, ?_, by decide⟩
  · intro versions
    have hred : get_migration_file_modules
        (Y.map [("migration", Y.map [("versions", Y.seq versions)])])
        = some (versions.foldl (fun acc v => acc ∪ (upgrade_mods v).toFinset) ∅) := rfl
    rw [hred, foldl_union_toFinset]
    simp
  · intro kvs h
    unfold upgrade_mods
    simp only [Y.get?, h]
  · intro kvs akvs h1 h2
    unfold upgrade_mods
    simp only [Y.get?, h1, h2]

/-- Witness for C5's skip clauses at concrete inputs: the empty mapping `{}`
has no `addons` key and contributes no modules, and a version whose `addons`
mapping lacks `upgrade` contributes none either. -/
theorem get_migration_file_modules_spec_witness :
    assocFind ([] : List (String × Y)) "addons" = none
    ∧ upgrade_mods (Y.map []) = []
    ∧ assocFind [("addons", Y.map [("install", Y.seq [])])] "addons"
        = some (Y.map [("install", Y.seq [])])
    ∧ assocFind [("install", Y.seq [])] "upgrade" = none
    ∧ upgrade_mods (Y.map [("addons", Y.map [("install", Y.seq [])])]) = [] :=
  ⟨rfl, get_migration_file_modules_spec.2.1 [] rfl, rfl, rfl,
    get_migration_file_modules_spec.2.2.1 [("addons", Y.map [("install", Y.seq [])])]
      [("install", Y.seq [])] rfl rfl⟩

/-! ## C3: `root_path` -/

/-- Under the `dropLast` parent model, a directory is its own parent exactly
at the filesystem root. -/
theorem dirname_eq_self_iff (p : DirPath) : dirname p = p ↔ p = [] := by
  unfold dirname
  constructor
  · intro h
    cases p with
    | nil => rfl
    | cons x xs =>
        have hlen := congrArg List.length h
        rw [List.length_dropLast] at hlen
        simp only [List.length_cons, Nat.add_sub_cancel] at hlen
        omega
  · intro h
    subst h
    rfl

/-- Characterization of the search loop: it returns `some d` exactly when `d`
is the first of the examined ancestors (within the fuel budget) whose listing
contains the marker file. -/
theorem root_path_loop_some_iff (listdir : DirPath → List String) :
    ∀ (n : Nat) (cur d : DirPath),
      root_path_loop listdir n cur = some d ↔
        ∃ k, k < n ∧ dirname^[k] cur = d ∧ cookiecutterMarker ∈ listdir d ∧
          ∀ j, j < k → cookiecutterMarker ∉ listdir (dirname^[j] cur) := by
  intro n
  induction n with
  | zero =>
      intro cur d
      simp [root_path_loop]
  | succ m ih =>
      intro cur d
      simp only [root_path_loop]
      by_cases hmem : cookiecutterMarker ∈ listdir cur
      · rw [if_pos hmem]
        constructor
        · intro h
          have hcd : cur = d := Option.some.inj h
          subst hcd
          exact ⟨0, Nat.succ_pos m, rfl, hmem, fun j hj => absurd hj (Nat.not_lt_zero j)⟩
        · rintro ⟨k, hk, hit, hmark, hmin⟩
          cases k with
          | zero =>
              simp only [Function.iterate_zero, id_eq] at hit
              rw [hit]
          | succ k' => exact absurd hmem (hmin 0 (Nat.succ_pos k'))
      · rw [if_neg hmem]
        by_cases hroot : dirname cur = cur
        · rw [if_pos hroot]
          constructor
          · intro h
            exact Option.noConfusion h
          · rintro ⟨k, hk, hit, hmark, hmin⟩
            rw [Function.iterate_fixed hroot k] at hit
            subst hit
            exact absurd hmark hmem
        · rw [if_neg hroot]
          rw [ih (dirname cur) d]
          constructor
          · rintro ⟨k, hk, hit, hmark, hmin⟩
            refine ⟨k + 1, Nat.succ_lt_succ hk, ?_, hmark, ?_⟩
            · rw [Function.iterate_succ_apply]
              exact hit
            · intro j hj
              cases j with
              | zero => simpa using hmem
              | succ j' =>
                  rw [Function.iterate_succ_apply]
                  exact hmin j' (Nat.lt_of_succ_lt_succ hj)
          · rintro ⟨k, hk, hit, hmark, hmin⟩
            cases k with
            | zero =>
                simp only [Function.iterate_zero, id_eq] at hit
                subst hit
                exact absurd hmark hmem
            | succ k' =>
                refine ⟨k', Nat.lt_of_succ_lt_succ hk, ?_, hmark, ?_⟩
                · rw [Function.iterate_succ_apply] at hit
                  exact hit
                · intro j hj
                  have hmj := hmin (j + 1) (Nat.succ_lt_succ hj)
                  rw [Function.iterate_succ_apply] at hmj
                  exact hmj

/-- C3: `root_path` returns the first directory, among the working directory
and at most four further ancestor levels (depths 0 through 4), whose listing
contains `.cookiecutter.context.yml`; and it aborts the process (modelled by
`none`: printed message plus non-zero exit) exactly when no examined ancestor
contains the marker — whether because the depth budget ran out or the
filesystem root (its own parent) was reached first without the marker. -/
theorem root_path_first_marker_within_depth (listdir : DirPath → List String)
    (cwd : DirPath) :
    (∀ d, root_path listdir cwd = some d ↔
        ∃ k, k < 5 ∧ dirname^[k] cwd = d ∧ cookiecutterMarker ∈ listdir d ∧
          ∀ j, j < k → cookiecutterMarker ∉ listdir (dirname^[j] cwd))
    ∧ (root_path listdir cwd = none ↔
        ∀ k, k < 5 → cookiecutterMarker ∉ listdir (dirname^[k] cwd)) := by
  refine ⟨fun d => root_path_loop_some_iff listdir 5 cwd d, ?_, ?_⟩
  · intro hnone k hk hmark
    have hex : ∃ j, j < 5 ∧ cookiecutterMarker ∈ listdir (dirname^[j] cwd) := ⟨k, hk, hmark⟩
    have hsome : root_path listdir cwd = some (dirname^[Nat.find hex] cwd) := by
      rw [root_path, root_path_loop_some_iff]
      refine ⟨Nat.find hex, (Nat.find_spec hex).1, rfl, (Nat.find_spec hex).2, ?_⟩
      intro j hj hmemj
      exact Nat.find_min hex hj ⟨Nat.lt_trans hj (Nat.find_spec hex).1, hmemj⟩
    rw [hnone] at hsome
    exact Option.noConfusion hsome
  · intro hall
    cases h : root_path listdir cwd with
    | none => rfl
    | some d =>
        obtain ⟨k, hk, hit, hmark, _⟩ := (root_path_loop_some_iff listdir 5 cwd d).mp h
        exact absurd hmark (hit ▸ hall k hk)

/-! ## C1: `update_yml_file` -/

/-- C1 counterexample: on a file carrying a comment, `update_yml_file` writes
back the merged mapping but an empty comment list — the original comments are
not preserved, because `yaml_load` (PyYAML) is used for reading and the loaded
plain data carries no comment or styling information. -/
theorem update_yml_file_comments_cex :
    update_yml_file ⟨[("a", Y.str "1")], ["# keep me"]⟩ [("b", Y.str "2")] none
      = some ⟨[("a", Y.str "1"), ("b", Y.str "2")], []⟩
    ∧ (["# keep me"] : List String) ≠ [] := by
  constructor
  · rfl
  · intro h
    exact List.noConfusion h

/-- C1 amended: `update_yml_file` performs the shallow merge and writes the
full merged document back — into the top-level mapping when `mainKey` is
absent, into the mapping at `mainKey` when present — but the written file
carries none of the original comments (styling is limited to the dumper's
configured indentation): the plain loader discards them before the rewrite. -/
theorem update_yml_file_merges_but_drops_comments :
    (∀ (f : YamlText) (nd : List (String × Y)),
        update_yml_file f nd none = some ⟨dictUpdate f.mapping nd, []⟩)
    ∧ (∀ (f : YamlText) (nd : List (String × Y)) (k : String) (sub : List (String × Y)),
        assocFind f.mapping k = some (Y.map sub) →
        update_yml_file f nd (some k)
          = some ⟨upsert f.mapping k (Y.map (dictUpdate sub nd)), []⟩) := by
  constructor
  · intro f nd
    rfl
  · intro f nd k sub h
    unfold update_yml_file yaml_load_full
    simp only [h]
    rfl

/-- Witness for C1's `mainKey` clause at a concrete file whose `odoo` key
holds a sub-mapping: the merge lands inside that sub-mapping and the written
comments are empty. -/
theorem update_yml_file_merges_but_drops_comments_witness :
    assocFind [("odoo", Y.map [("x", Y.str "1")])] "odoo" = some (Y.map [("x", Y.str "1")])
    ∧ update_yml_file ⟨[("odoo", Y.map [("x", Y.str "1")])], ["# c"]⟩ [("y", Y.str "2")]
        (some "odoo")
      = some ⟨[("odoo", Y.map [("x", Y.str "1"), ("y", Y.str "2")])], []⟩ :=
  ⟨rfl, update_yml_file_merges_but_drops_comments.2
    ⟨[("odoo", Y.map [("x", Y.str "1")])], ["# c"]⟩ [("y", Y.str "2")] "odoo"
    [("x", Y.str "1")] rfl⟩

/-! ## C2: `make_bumpversion_cmd` -/

/-- C2 counterexample: with the explicitly supplied version string `""` the
command contains no `--new-version` flag at all (Python `if new_version:` is
falsy on the empty string), refuting "contains `--new-version <v>` if and
only if a version was supplied". -/
theorem make_bumpversion_cmd_empty_version_cex :
    make_bumpversion_cmd "major" (some "") false = "bumpversion major"
    ∧ ¬strContains (make_bumpversion_cmd "major" (some "") false) ("--new-version " ++ "") := by
  constructor
  · decide
  · decide

/-- Character data of the command with no version and no dry-run. -/
theorem mbc_data_none_false (rel : String) :
    (make_bumpversion_cmd rel none false).data
      = "bumpversion".data ++ (" ".data ++ rel.data) := by
  simp [make_bumpversion_cmd, joinSp, strData_append, List.append_assoc]

/-- Character data of the command with no version, dry-run requested. -/
theorem mbc_data_none_true (rel : String) :
    (make_bumpversion_cmd rel none true).data
      = "bumpversion".data ++ (" ".data ++ ("--dry-run --list".data
          ++ (" ".data ++ rel.data))) := by
  simp [make_bumpversion_cmd, joinSp, strData_append, List.append_assoc]

/-- Character data of the command with a non-empty version, no dry-run. -/
theorem mbc_data_some_false (rel v : String) (hv : ¬v = "") :
    (make_bumpversion_cmd rel (some v) false).data
      = "bumpversion".data ++ (" ".data ++ ("--new-version ".data
          ++ (v.data ++ (" ".data ++ rel.data)))) := by
  simp [make_bumpversion_cmd, joinSp, strData_append, List.append_assoc, hv]

/-- Character data of the command with a non-empty version, dry-run requested. -/
theorem mbc_data_some_true (rel v : String) (hv : ¬v = "") :
    (make_bumpversion_cmd rel (some v) true).data
      = "bumpversion".data ++ (" ".data ++ ("--new-version ".data
          ++ (v.data ++ (" ".data ++ ("--dry-run --list".data
              ++ (" ".data ++ rel.data)))))) := by
  simp [make_bumpversion_cmd, joinSp, strData_append, List.append_assoc, hv]

/-- No split of `--dry-run --list` has a nonempty prefix of the trailing
` relType` part as its final piece. -/
theorem straddle_right_check {Sdata q1 q2 : List Char}
    (hS : ∀ n, n < 7 → 1 ≤ n →
      ¬Sdata.take n = "--dry-run --list".data.drop ("--dry-run --list".data.length - n))
    (hlenS : Sdata.length ≤ 6)
    (hsplit : "--dry-run --list".data = q1 ++ q2) (hq2 : q2 ≠ [])
    (hpre : PrefL q2 Sdata) : False := by
  have e1 : q2 = "--dry-run --list".data.drop ("--dry-run --list".data.length - q2.length) :=
    sufL_drop ⟨q1, hsplit⟩
  have e2 : q2 = Sdata.take q2.length := prefL_take hpre
  have hge : 1 ≤ q2.length := by
    cases q2 with
    | nil => exact absurd rfl hq2
    | cons a l => simp
  have hle : q2.length ≤ 6 := le_trans (prefL_len hpre) hlenS
  exact hS q2.length (by omega) hge (e2.symm.trans e1)

/-- No split of `--dry-run --list` has a nonempty suffix of
`bumpversion --new-version ` as its initial piece. -/
theorem straddle_left_check {p1 p2 : List Char}
    (hsplit : "--dry-run --list".data = p1 ++ p2) (hp1 : p1 ≠ [])
    (hsuf : SufL p1 "bumpversion --new-version ".data) : False := by
  have e1 : p1 = "--dry-run --list".data.take p1.length := prefL_take ⟨p2, hsplit⟩
  have e2 : p1 = "bumpversion --new-version ".data.drop
      ("bumpversion --new-version ".data.length - p1.length) := sufL_drop hsuf
  have hge : 1 ≤ p1.length := by
    cases p1 with
    | nil => exact absurd rfl hp1
    | cons a l => simp
  have hle : p1.length ≤ 16 := by
    have h16 : "--dry-run --list".data.length = 16 := by decide
    have hlen := congrArg List.length hsplit
    rw [h16, List.length_append] at hlen
    omega
  have hchk : ∀ n, n < 17 → 1 ≤ n →
      ¬"--dry-run --list".data.take n = "bumpversion --new-version ".data.drop
        ("bumpversion --new-version ".data.length - n) := by decide
  exact hchk p1.length (by omega) hge (e1.symm.trans e2)

/-- When dry-run is off and the version text does not itself contain
`--dry-run --list`, that text occurs nowhere in the built command. -/
theorem no_dry_run_text {v rel : String}
    (hrel : rel = "major" ∨ rel = "minor" ∨ rel = "patch")
    (hv : ¬SubL "--dry-run --list".data v.data)
    (h : SubL "--dry-run --list".data
      ("bumpversion --new-version ".data ++ (v.data ++ (" ".data ++ rel.data)))) : False := by
  rcases sub_append_cases _ _ _ h with h1 | h23 | ⟨p1, p2, hsplit, hn1, hn2, hsuf, hpre⟩
  · exact absurd ((isSubB_iff _ _).mpr h1) (by decide)
  · rcases sub_append_cases _ _ _ h23 with h3 | h4 | ⟨q1, q2, hsplit2, hm1, hm2, hsuf2, hpre2⟩
    · exact hv h3
    · rcases hrel with rfl | rfl | rfl
      · exact absurd ((isSubB_iff _ _).mpr h4) (by decide)
      · exact absurd ((isSubB_iff _ _).mpr h4) (by decide)
      · exact absurd ((isSubB_iff _ _).mpr h4) (by decide)
    · rcases hrel with rfl | rfl | rfl
      · exact straddle_right_check (by decide) (by decide) hsplit2 hm2 hpre2
      · exact straddle_right_check (by decide) (by decide) hsplit2 hm2 hpre2
      · exact straddle_right_check (by decide) (by decide) hsplit2 hm2 hpre2
  · exact straddle_left_check hsplit hn1 hsuf

/-- C2 amended: for `relType` in {major, minor, patch}, `make_bumpversion_cmd`
is a pure function whose space-joined result ends in the space-free token
`relType`; it contains `--new-version <v>` iff a non-empty version `v` was
supplied (the empty string is falsy in Python and supplies nothing); and —
provided any supplied version string does not itself contain the text
`--dry-run --list` — it contains `--dry-run --list` iff dry-run was
requested. -/
theorem make_bumpversion_cmd_amended_spec (rel : String)
    (hrel : rel = "major" ∨ rel = "minor" ∨ rel = "patch")
    (nv : Option String) (dry : Bool)
    (hnv : ∀ v, nv = some v → v ≠ "" ∧ ¬strContains v "--dry-run --list") :
    (SufL (" " ++ rel).data (make_bumpversion_cmd rel nv dry).data ∧ ' ' ∉ rel.data)
    ∧ (∀ v, nv = some v →
        strContains (make_bumpversion_cmd rel nv dry) ("--new-version " ++ v))
    ∧ (nv = none → ¬strContains (make_bumpversion_cmd rel nv dry) "--new-version")
    ∧ (strContains (make_bumpversion_cmd rel nv dry) "--dry-run --list" ↔ dry = true) := by
  have hspace : ' ' ∉ rel.data := by
    rcases hrel with rfl | rfl | rfl
    · decide
    · decide
    · decide
  cases nv with
  | none =>
      cases dry with
      | false =>
          refine ⟨⟨⟨"bumpversion".data, ?_⟩, hspace⟩, ?_, ?_, ?_⟩
          · rw [mbc_data_none_false, strData_append]
          · intro v hveq
            exact Option.noConfusion hveq
          · intro _
            rcases hrel with rfl | rfl | rfl
            · decide
            · decide
            · decide
          · constructor
            · intro hcon
              exfalso
              rcases hrel with rfl | rfl | rfl
              · exact absurd hcon (by decide)
              · exact absurd hcon (by decide)
              · exact absurd hcon (by decide)
            · intro hd
              exact Bool.noConfusion hd
      | true =>
          refine ⟨⟨⟨"bumpversion".data ++ (" ".data ++ "--dry-run --list".data), ?_⟩,
              hspace⟩, ?_, ?_, ?_⟩
          · rw [mbc_data_none_true]
            simp [strData_append, List.append_assoc]
          · intro v hveq
            exact Option.noConfusion hveq
          · intro _
            rcases hrel with rfl | rfl | rfl
            · decide
            · decide
            · decide
          · refine ⟨fun _ => rfl, fun _ => ?_⟩
            refine (isSubB_iff _ _).mpr ⟨"bumpversion".data ++ " ".data,
              " ".data ++ rel.data, ?_⟩
            rw [mbc_data_none_true]
            simp [List.append_assoc]
  | some v =>
      obtain ⟨hv1, hv2⟩ := hnv v rfl
      have hv2' : ¬SubL "--dry-run --list".data v.data :=
        fun hs => hv2 ((isSubB_iff _ _).mpr hs)
      cases dry with
      | false =>
          refine ⟨⟨⟨"bumpversion".data ++ (" ".data ++ ("--new-version ".data ++ v.data)),
              ?_⟩, hspace⟩, ?_, ?_, ?_⟩
          · rw [mbc_data_some_false rel v hv1]
            simp [strData_append, List.append_assoc]
          · intro v' hv'eq
            have hvv : v = v' := Option.some.inj hv'eq
            subst hvv
            refine (isSubB_iff _ _).mpr ⟨"bumpversion".data ++ " ".data,
              " ".data ++ rel.data, ?_⟩
            rw [mbc_data_some_false rel v hv1]
            simp [strData_append, List.append_assoc]
          · intro habs
            exact Option.noConfusion habs
          · constructor
            · intro hcon
              exfalso
              have hsub : SubL "--dry-run --list".data
                  (make_bumpversion_cmd rel (some v) false).data :=
                (isSubB_iff _ _).mp hcon
              rw [mbc_data_some_false rel v hv1,
                append_fuse3 (by decide :
                  "bumpversion".data ++ (" ".data ++ "--new-version ".data)
                    = "bumpversion --new-version ".data)] at hsub
              exact no_dry_run_text hrel hv2' hsub
            · intro hd
              exact Bool.noConfusion hd
      | true =>
          refine ⟨⟨⟨"bumpversion".data ++ (" ".data ++ ("--new-version ".data
              ++ (v.data ++ (" ".data ++ "--dry-run --list".data)))), ?_⟩, hspace⟩,
            ?_, ?_, ?_⟩
          · rw [mbc_data_some_true rel v hv1]
            simp [strData_append, List.append_assoc]
          · intro v' hv'eq
            have hvv : v = v' := Option.some.inj hv'eq
            subst hvv
            refine (isSubB_iff _ _).mpr ⟨"bumpversion".data ++ " ".data,
              " ".data ++ ("--dry-run --list".data ++ (" ".data ++ rel.data)), ?_⟩
            rw [mbc_data_some_true rel v hv1]
            simp [strData_append, List.append_assoc]
          · intro habs
            exact Option.noConfusion habs
          · refine ⟨fun _ => rfl, fun _ => ?_⟩
            refine (isSubB_iff _ _).mpr ⟨"bumpversion".data ++ (" ".data
              ++ ("--new-version ".data ++ (v.data ++ " ".data))),
              " ".data ++ rel.data, ?_⟩
            rw [mbc_data_some_true rel v hv1]
            simp [List.append_assoc]

/-- Witness for C2's amended statement at `relType = patch`,
`newVersion = 1.2.3`, dry-run requested. -/
theorem make_bumpversion_cmd_amended_spec_witness :
    ("1.2.3" : String) ≠ ""
    ∧ ¬strContains "1.2.3" "--dry-run --list"
    ∧ (SufL (" " ++ "patch").data (make_bumpversion_cmd "patch" (some "1.2.3") true).data
        ∧ ' ' ∉ "patch".data)
    ∧ strContains (make_bumpversion_cmd "patch" (some "1.2.3") true)
        ("--new-version " ++ "1.2.3")
    ∧ strContains (make_bumpversion_cmd "patch" (some "1.2.3") true) "--dry-run --list" := by
  have h := make_bumpversion_cmd_amended_spec "patch" (Or.inr (Or.inr rfl))
    (some "1.2.3") true
    (fun v hv => by
      have hvv : "1.2.3" = v := Option.some.inj hv
      subst hvv
      exact ⟨by decide, by decide⟩)
  exact ⟨by decide, by decide, h.1, h.2.1 "1.2.3" rfl, h.2.2.2.mpr rfl⟩

end OdooTools
